import Mathlib

/-!
Shallow embedding of the blog repository's series utilities:
`src/utils/getPostsBySeries.ts` (`getPostsBySeries`, `getSeriesNavigation`)
and `src/utils/getUniqueSeries.ts` (`getUniqueSeries`).

A post is modelled by the fields these functions consume.  JavaScript's
`Array.prototype.sort` with a consistent comparator is required to be a
stable sort, so it is embedded as `List.insertionSort` (a stable sort) on
the relation "comparator result is nonpositive".  The JavaScript `Map`
keeps insertion order, so it is embedded as an association list to which
fresh keys are appended at the end.
-/

/-- A blog post, restricted to the fields the series utilities consume.
`pubDatetime` is the millisecond timestamp `Date.getTime()` returns;
`series` and `seriesOrder` are the optional front-matter fields; `draft`
feeds the eligibility filter. -/
structure Post where
  id : String
  pubDatetime : Int
  series : Option String
  seriesOrder : Option Int
  draft : Bool
deriving Repr, DecidableEq

/-- Modelled from the spec: `postFilter` (src/utils/postFilter.ts is not part
of the sources given).  The spec treats it as an external pure eligibility
predicate; the claims only ever speak about the posts that pass it, so any
pure predicate on a post is faithful.  We keep the draft check. -/
def postFilter (p : Post) : Bool := !p.draft

/-- Lower-case an ASCII letter, used by the modelled `slugifyStr`. -/
def lowerChar (c : Char) : Char :=
  if 65 ≤ c.toNat && c.toNat ≤ 90 then Char.ofNat (c.toNat + 32) else c

/-- Maximal alphanumeric runs of a character list, lower-cased, used by the
modelled `slugifyStr`. -/
def slugWords : List Char → List (List Char)
  | [] => []
  | c :: rest =>
    if c.isAlphanum then
      match rest, slugWords rest with
      | d :: _, w :: ws =>
        if d.isAlphanum then (lowerChar c :: w) :: ws else [lowerChar c] :: w :: ws
      | _, ws => [lowerChar c] :: ws
    else slugWords rest

/-- Join words with single hyphens, used by the modelled `slugifyStr`. -/
def hyphenJoin : List (List Char) → List Char
  | [] => []
  | [w] => w
  | w :: ws => w ++ '-' :: hyphenJoin ws

/-- Modelled from the spec: `slugifyStr` (src/utils/slugify.ts is not part of
the sources given).  The spec describes the series identifier as the
case-folded, punctuation-stripped, space-to-hyphen normalization of the
series name (kebab-case), which this computes. -/
def slugifyStr (s : String) : String := String.mk (hyphenJoin (slugWords s.data))

/-- The JavaScript truthiness test `post.data.series && ...` used by both
utility files: the optional field must be present and non-empty. -/
def seriesTruthy (p : Post) : Bool :=
  match p.series with
  | none => false
  | some s => !(s == "")

/-- The series identifier computed for a post, `slugifyStr(post.data.series)`
with the absent field read as the empty string. -/
def slugOf (p : Post) : String := slugifyStr (p.series.getD "")

/-- The sort callback of `getPostsBySeries` (src/utils/getPostsBySeries.ts,
lines 12-23): compare `seriesOrder ?? 999`, and on equality fall back to the
difference of the publication timestamps. -/
def cmpSeries (a b : Post) : Int :=
  if a.seriesOrder.getD 999 ≠ b.seriesOrder.getD 999 then
    a.seriesOrder.getD 999 - b.seriesOrder.getD 999
  else
    a.pubDatetime - b.pubDatetime

/-- The ordering relation realised by the JavaScript sort: `a` may sit before
`b` exactly when the comparator is nonpositive. -/
def seriesLe (a b : Post) : Prop := cmpSeries a b ≤ 0

instance : DecidableRel seriesLe :=
  fun a b => inferInstanceAs (Decidable (cmpSeries a b ≤ 0))

/-- `getPostsBySeries` (src/utils/getPostsBySeries.ts): filter to eligible
posts whose slugified series equals the requested identifier, then stably
sort with `cmpSeries`. -/
def getPostsBySeries (posts : List Post) (series : String) : List Post :=
  List.insertionSort seriesLe
    ((posts.filter postFilter).filter
      (fun post => seriesTruthy post && (slugOf post == series)))

/-- The `Series` summary record of src/utils/getUniqueSeries.ts. -/
structure Series where
  series : String
  seriesName : String
  count : Nat
deriving Repr, DecidableEq

/-- One step of the `Map`-building loop of `getUniqueSeries`
(src/utils/getUniqueSeries.ts, lines 17-26): on a seen slug bump its count in
place, otherwise append a fresh entry `(slug, seriesName, 1)`. -/
def insertSeries (acc : List (String × String × Nat)) (post : Post) :
    List (String × String × Nat) :=
  let seriesSlug := slugOf post
  if acc.any (fun e => e.1 == seriesSlug) then
    acc.map (fun e => if e.1 == seriesSlug then (e.1, e.2.1, e.2.2 + 1) else e)
  else
    acc ++ [(seriesSlug, post.series.getD "", 1)]

/-- Strict lexicographic comparison of character lists by code point, used by
the modelled `localeCompare`. -/
def lexLtCh : List Char → List Char → Bool
  | [], [] => false
  | [], _ :: _ => true
  | _ :: _, [] => false
  | a :: as, b :: bs =>
    if a.toNat < b.toNat then true
    else if b.toNat < a.toNat then false
    else lexLtCh as bs

/-- Modelled from the spec: `String.prototype.localeCompare` (an external
runtime collator, not part of the sources given).  The spec only requires a
deterministic locale-aware lexicographic comparison; it is modelled as code
point lexicographic comparison returning negative, zero or positive. -/
def localeCompare (a b : String) : Int :=
  if lexLtCh a.data b.data then -1
  else if lexLtCh b.data a.data then 1
  else 0

/-- The ordering relation realised by the summary sort of `getUniqueSeries`
(line 34): the `localeCompare` of the display names is nonpositive. -/
def summaryLe (a b : Series) : Prop := localeCompare a.seriesName b.seriesName ≤ 0

instance : DecidableRel summaryLe :=
  fun a b => inferInstanceAs (Decidable (localeCompare a.seriesName b.seriesName ≤ 0))

/-- `getUniqueSeries` (src/utils/getUniqueSeries.ts): fold the eligible
series-bearing posts into the insertion-ordered map, turn its entries into
`Series` records, and stably sort them by display name. -/
def getUniqueSeries (posts : List Post) : List Series :=
  let entries := ((posts.filter postFilter).filter seriesTruthy).foldl insertSeries []
  List.insertionSort summaryLe
    (entries.map (fun e => { series := e.1, seriesName := e.2.1, count := e.2.2 }))

/-- The `SeriesNavigation` record of src/utils/getPostsBySeries.ts
(second module, lines 31-37). -/
structure SeriesNavigation where
  prevPost : Option Post
  nextPost : Option Post
  currentIndex : Nat
  totalPosts : Nat
  seriesName : String
deriving Repr, DecidableEq

/-- JavaScript `Array.prototype.findIndex`, with the -1 result embedded as
`none`. -/
def findIndex {α : Type _} (p : α → Bool) : List α → Option Nat
  | [] => none
  | a :: as => if p a then some 0 else (findIndex p as).map (· + 1)

/-- `getSeriesNavigation` (src/utils/getPostsBySeries.ts, second module,
lines 39-68): bail out on a falsy series, look the current post up by id in
its ordered series, and read the neighbours off the ordered list. -/
def getSeriesNavigation (posts : List Post) (currentPost : Post) :
    Option SeriesNavigation :=
  if !(seriesTruthy currentPost) then none
  else
    let seriesPosts := getPostsBySeries posts (slugOf currentPost)
    match findIndex (fun post => post.id == currentPost.id) seriesPosts with
    | none => none
    | some currentIndex =>
      some {
        prevPost := if 0 < currentIndex then seriesPosts[currentIndex - 1]? else none
        nextPost :=
          if currentIndex < seriesPosts.length - 1 then seriesPosts[currentIndex + 1]?
          else none
        currentIndex := currentIndex + 1
        totalPosts := seriesPosts.length
        seriesName := currentPost.series.getD "" }

/-- Follows the spec's words, for refinement comparison only (not a source
translation): "sorted non-decreasing by (seriesOrder ?? +inf,
publicationTimestamp, id)", with the absent order as a value above every real
order and the id as final tie-break. -/
def ordKeyLt : Option Int → Option Int → Bool
  | some x, some y => x < y
  | some _, none => true
  | none, _ => false

/-- Follows the spec's words, for refinement comparison only (not a source
translation): the claimed non-decreasing key triple comparison. -/
def specTripleLe (a b : Post) : Bool :=
  ordKeyLt a.seriesOrder b.seriesOrder ||
    (a.seriesOrder == b.seriesOrder &&
      (a.pubDatetime < b.pubDatetime ||
        (a.pubDatetime == b.pubDatetime && !(lexLtCh b.id.data a.id.data))))

/-- Concrete post with the explicit series order 1000, above the 999 sentinel
the code uses for an absent order. -/
def postOrder1000 : Post :=
  { id := "a", pubDatetime := 0, series := some "s", seriesOrder := some 1000,
    draft := false }

/-- Concrete post in the same series with no series order. -/
def postNoOrder : Post :=
  { id := "b", pubDatetime := 0, series := some "s", seriesOrder := none,
    draft := false }

/-- Concrete post: no series order, timestamp 5, id "b", listed first. -/
def postTieFirst : Post :=
  { id := "b", pubDatetime := 5, series := some "s", seriesOrder := none,
    draft := false }

/-- Concrete post identical to `postTieFirst` except for the smaller id "a",
listed second. -/
def postTieSecond : Post :=
  { id := "a", pubDatetime := 5, series := some "s", seriesOrder := none,
    draft := false }

/-- Concrete post whose series name mixes case and double spacing. -/
def postAxumA : Post :=
  { id := "w1", pubDatetime := 0, series := some "Axum  A", seriesOrder := some 1,
    draft := false }

/-- Concrete post whose series name normalizes like `postAxumA`. -/
def postAxumB : Post :=
  { id := "w2", pubDatetime := 1, series := some "axum a", seriesOrder := none,
    draft := false }

/-- Concrete series post 1 of 3 for the navigation witnesses. -/
def postNav1 : Post :=
  { id := "n1", pubDatetime := 0, series := some "s", seriesOrder := some 1,
    draft := false }

/-- Concrete series post 2 of 3 for the navigation witnesses. -/
def postNav2 : Post :=
  { id := "n2", pubDatetime := 1, series := some "s", seriesOrder := some 2,
    draft := false }

/-- Concrete series post 3 of 3 for the navigation witnesses. -/
def postNav3 : Post :=
  { id := "n3", pubDatetime := 2, series := some "s", seriesOrder := some 3,
    draft := false }

/-- Concrete post whose series field is present but the empty string. -/
def postEmptySeries : Post :=
  { id := "e", pubDatetime := 0, series := some "", seriesOrder := some 1,
    draft := false }

/-! ### Ordering facts about the post comparator -/

theorem cmpSeries_le_iff (a b : Post) :
    cmpSeries a b ≤ 0 ↔
      (a.seriesOrder.getD 999 < b.seriesOrder.getD 999 ∨
        (a.seriesOrder.getD 999 = b.seriesOrder.getD 999 ∧
          a.pubDatetime ≤ b.pubDatetime)) := by
  unfold cmpSeries
  split <;> omega

instance : IsTotal Post seriesLe := by
  constructor
  intro a b
  rw [seriesLe, seriesLe, cmpSeries_le_iff, cmpSeries_le_iff]
  omega

instance : IsTrans Post seriesLe := by
  constructor
  intro a b c hab hbc
  rw [seriesLe, cmpSeries_le_iff] at hab hbc ⊢
  omega

theorem getPostsBySeries_pairwise (posts : List Post) (s : String) :
    (getPostsBySeries posts s).Pairwise seriesLe :=
  List.sorted_insertionSort seriesLe _

theorem getPostsBySeries_perm (posts : List Post) (s : String) :
    (getPostsBySeries posts s).Perm
      ((posts.filter postFilter).filter
        (fun post => seriesTruthy post && (slugOf post == s))) :=
  List.perm_insertionSort seriesLe _

/-! ### Facts about the embedded findIndex -/

theorem findIndex_eq_none_iff {α : Type _} (p : α → Bool) (l : List α) :
    findIndex p l = none ↔ ∀ a ∈ l, p a = false := by
  induction l with
  | nil => simp [findIndex]
  | cons a as ih =>
    by_cases h : p a = true
    · simp [findIndex, h]
    · simp only [Bool.not_eq_true] at h
      simp [findIndex, h, ih, Option.map_eq_none']

theorem findIndex_lt_length {α : Type _} {p : α → Bool} {l : List α} {i : Nat}
    (h : findIndex p l = some i) : i < l.length := by
  induction l generalizing i with
  | nil => simp [findIndex] at h
  | cons a as ih =>
    by_cases hp : p a = true
    · simp only [findIndex, hp, if_true, Option.some.injEq] at h
      simp [← h]
    · simp only [Bool.not_eq_true] at hp
      simp only [findIndex, hp, Bool.false_eq_true, if_false, Option.map_eq_some'] at h
      obtain ⟨j, hj, rfl⟩ := h
      have := ih hj
      simp only [List.length_cons]
      omega

/-! ### Ordering facts about the modelled locale comparison -/

theorem lexLtCh_asymm : ∀ {a b : List Char},
    lexLtCh a b = true → lexLtCh b a = false := by
  intro a
  induction a with
  | nil =>
    intro b hab
    cases b with
    | nil => simp [lexLtCh] at hab
    | cons y ys => simp [lexLtCh]
  | cons x xs ih =>
    intro b hab
    cases b with
    | nil => simp [lexLtCh] at hab
    | cons y ys =>
      simp only [lexLtCh] at hab ⊢
      by_cases hxy : x.toNat < y.toNat
      · have hyx : ¬ y.toNat < x.toNat := by omega
        simp [hxy, hyx]
      · by_cases hyx : y.toNat < x.toNat
        · simp [hxy, hyx] at hab
        · simp only [hxy, hyx, if_false] at hab
          simp [hxy, hyx, ih hab]

theorem lexLtCh_connex : ∀ {a b : List Char},
    lexLtCh a b = false → lexLtCh b a = false → a = b := by
  intro a
  induction a with
  | nil =>
    intro b hab hba
    cases b with
    | nil => rfl
    | cons y ys => simp [lexLtCh] at hab
  | cons x xs ih =>
    intro b hab hba
    cases b with
    | nil => simp [lexLtCh] at hba
    | cons y ys =>
      simp only [lexLtCh] at hab hba
      by_cases hxy : x.toNat < y.toNat
      · simp [hxy] at hab
      · by_cases hyx : y.toNat < x.toNat
        · simp [hxy, hyx] at hba
        · simp only [hxy, hyx, if_false] at hab hba
          have hchar : x = y := by
            have hn : x.toNat = y.toNat := by omega
            rw [← Char.ofNat_toNat x, ← Char.ofNat_toNat y, hn]
          rw [hchar, ih hab hba]

theorem lexLtCh_trans : ∀ {a b c : List Char},
    lexLtCh a b = true → lexLtCh b c = true → lexLtCh a c = true := by
  intro a
  induction a with
  | nil =>
    intro b c hab hbc
    cases b with
    | nil => simp [lexLtCh] at hab
    | cons y ys =>
      cases c with
      | nil => simp [lexLtCh] at hbc
      | cons z zs => simp [lexLtCh]
  | cons x xs ih =>
    intro b c hab hbc
    cases b with
    | nil => simp [lexLtCh] at hab
    | cons y ys =>
      cases c with
      | nil => simp [lexLtCh] at hbc
      | cons z zs =>
        simp only [lexLtCh] at hab hbc ⊢
        by_cases hxy : x.toNat < y.toNat
        · by_cases hyz : y.toNat < z.toNat
          · have h : x.toNat < z.toNat := by omega
            simp [h]
          · by_cases hzy : z.toNat < y.toNat
            · simp [hyz, hzy] at hbc
            · have h : x.toNat < z.toNat := by omega
              simp [h]
        · by_cases hyx : y.toNat < x.toNat
          · simp [hxy, hyx] at hab
          · by_cases hyz : y.toNat < z.toNat
            · have h : x.toNat < z.toNat := by omega
              simp [h]
            · by_cases hzy : z.toNat < y.toNat
              · simp [hyz, hzy] at hbc
              · simp only [hxy, hyx, if_false] at hab
                simp only [hyz, hzy, if_false] at hbc
                have hxz : ¬ x.toNat < z.toNat := by omega
                have hzx : ¬ z.toNat < x.toNat := by omega
                simp [hxz, hzx, ih hab hbc]

theorem localeCompare_nonpos_iff (a b : String) :
    localeCompare a b ≤ 0 ↔ lexLtCh b.data a.data = false := by
  unfold localeCompare
  by_cases h1 : lexLtCh a.data b.data = true
  · simp [h1, lexLtCh_asymm h1]
  · by_cases h2 : lexLtCh b.data a.data = true
    · simp only [h1, if_false, h2, if_true, Bool.false_eq_true, ite_false, ite_true]
      constructor
      · intro h
        omega
      · intro h
        simp at h
    · simp only [Bool.not_eq_true] at h1 h2
      simp [h1, h2]

instance : IsTotal Series summaryLe := by
  constructor
  intro a b
  by_cases h : lexLtCh a.seriesName.data b.seriesName.data = true
  · exact Or.inl ((localeCompare_nonpos_iff _ _).mpr (lexLtCh_asymm h))
  · simp only [Bool.not_eq_true] at h
    exact Or.inr ((localeCompare_nonpos_iff _ _).mpr h)

instance : IsTrans Series summaryLe := by
  constructor
  intro a b c hab hbc
  rw [summaryLe, localeCompare_nonpos_iff] at hab hbc ⊢
  by_cases hca : lexLtCh c.seriesName.data a.seriesName.data = true
  · by_cases hab2 : lexLtCh a.seriesName.data b.seriesName.data = true
    · rw [lexLtCh_trans hca hab2] at hbc
      exact absurd hbc (by simp)
    · simp only [Bool.not_eq_true] at hab2
      have hdata := lexLtCh_connex hab2 hab
      rw [hdata] at hca
      rw [hca] at hbc
      exact absurd hbc (by simp)
  · simpa using hca

/-! ### The map built by getUniqueSeries -/

/-- The eligible series-bearing posts, in input order: the
`.filter(postFilter).filter(post => post.data.series)` chain of
src/utils/getUniqueSeries.ts. -/
def eligibleSeriesPosts (posts : List Post) : List Post :=
  (posts.filter postFilter).filter seriesTruthy

/-- The entry the association list built by `insertSeries` must hold for key
`g` after processing `ps`: nothing when no post of `ps` has slug `g`,
otherwise the slug, the series name of the first such post, and the count of
such posts. -/
def expectedEntry (ps : List Post) (g : String) : Option (String × String × Nat) :=
  match ps.find? (fun p => slugOf p == g) with
  | none => none
  | some q => some (g, q.series.getD "", ps.countP (fun p => slugOf p == g))

/-- Invariant tying the processed posts to the accumulated association list:
keys are distinct and lookup agrees with `expectedEntry`. -/
def accInv (ps : List Post) (acc : List (String × String × Nat)) : Prop :=
  ((acc.map Prod.fst).Nodup) ∧
    ∀ g : String, acc.find? (fun e => e.1 == g) = expectedEntry ps g


theorem accInv_step {ps : List Post} {acc : List (String × String × Nat)} (p : Post)
    (h : accInv ps acc) : accInv (ps ++ [p]) (insertSeries acc p) := by
  obtain ⟨hnd, hfind⟩ := h
  by_cases hseen : acc.any (fun e => e.1 == slugOf p) = true
  · -- the slug is already a key: the count of its entry is bumped in place
    obtain ⟨e0, he0, hpe0⟩ := List.any_eq_true.mp hseen
    have hsome : (acc.find? (fun e => e.1 == slugOf p)).isSome = true :=
      List.find?_isSome.mpr ⟨e0, he0, hpe0⟩
    rw [hfind (slugOf p)] at hsome
    have hkey : ∀ e : String × String × Nat,
        ((if e.1 == slugOf p then (e.1, e.2.1, e.2.2 + 1) else e) :
          String × String × Nat).1 = e.1 := by
      intro e
      by_cases hb : (e.1 == slugOf p) = true <;> simp [hb]
    unfold insertSeries
    simp only [hseen, if_true, ite_true]
    constructor
    · rw [List.map_map]
      have heq : (Prod.fst ∘ fun e : String × String × Nat =>
          if e.1 == slugOf p then (e.1, e.2.1, e.2.2 + 1) else e) =
          (Prod.fst : String × String × Nat → String) := by
        funext e
        simp only [Function.comp]
        exact hkey e
      rw [heq]
      exact hnd
    · intro g
      have hpredeq :
          ((fun e : String × String × Nat => e.1 == g) ∘
            (fun e : String × String × Nat =>
              if e.1 == slugOf p then (e.1, e.2.1, e.2.2 + 1) else e)) =
            (fun e : String × String × Nat => e.1 == g) := by
        funext e
        simp only [Function.comp]
        rw [hkey e]
      rw [List.find?_map, hpredeq, hfind g]
      by_cases hg : slugOf p = g
      · subst hg
        unfold expectedEntry at hsome ⊢
        rw [List.find?_append, List.countP_append]
        cases hq : ps.find? (fun q => slugOf q == slugOf p) with
        | none =>
          rw [hq] at hsome
          simp at hsome
        | some q =>
          simp [Option.or, List.find?, List.countP_singleton]
      · have hpg : (slugOf p == g) = false := by
          simp [hg]
        have hgp : (g == slugOf p) = false := by
          simp [Ne.symm hg]
        unfold expectedEntry
        rw [List.find?_append, List.countP_append]
        have h2 : List.find? (fun q => slugOf q == g) [p] = none := by
          simp [List.find?, hpg]
        have h3 : List.countP (fun q => slugOf q == g) [p] = 0 := by
          simp [List.countP_singleton, hpg]
        rw [h2, h3, Option.or_none]
        cases hq : ps.find? (fun q => slugOf q == g) with
        | none => simp
        | some q =>
          simp [hgp]
          exact fun hh => hg hh.symm
  · -- fresh slug: a new entry is appended at the end
    have hnone : ∀ e ∈ acc, (e.1 == slugOf p) = false := by
      intro e he
      by_cases hb : (e.1 == slugOf p) = true
      · exact absurd (List.any_eq_true.mpr ⟨e, he, hb⟩) hseen
      · simpa using hb
    have haccnone : acc.find? (fun e => e.1 == slugOf p) = none :=
      List.find?_eq_none.mpr (fun e he => by simp [hnone e he])
    have hpsnone : ps.find? (fun q => slugOf q == slugOf p) = none := by
      have h1 := hfind (slugOf p)
      rw [haccnone] at h1
      unfold expectedEntry at h1
      cases hq : ps.find? (fun q => slugOf q == slugOf p) with
      | none => rfl
      | some q => rw [hq] at h1; simp at h1
    have hpszero : ps.countP (fun q => slugOf q == slugOf p) = 0 :=
      List.countP_eq_zero.mpr (List.find?_eq_none.mp hpsnone)
    have hseenf : acc.any (fun e => e.1 == slugOf p) = false := by
      cases hca : acc.any (fun e => e.1 == slugOf p) with
      | false => rfl
      | true => exact absurd hca hseen
    unfold insertSeries
    simp only [hseenf, Bool.false_eq_true, if_false, ite_false]
    constructor
    · rw [List.map_append, List.nodup_append]
      refine ⟨hnd, List.nodup_singleton _, ?_⟩
      intro k hk hk1
      simp only [List.map_cons, List.map_nil, List.mem_singleton] at hk1
      subst hk1
      obtain ⟨e, he, hke⟩ := List.mem_map.mp hk
      have hc := hnone e he
      rw [hke] at hc
      simp at hc
    · intro g
      rw [List.find?_append]
      by_cases hg : slugOf p = g
      · subst hg
        rw [haccnone, Option.none_or]
        unfold expectedEntry
        rw [List.find?_append, hpsnone, Option.none_or, List.countP_append, hpszero]
        simp [List.find?, List.countP_singleton]
      · have hpg : (slugOf p == g) = false := by
          simp [hg]
        have h1 : List.find? (fun e : String × String × Nat => e.1 == g)
            [(slugOf p, p.series.getD "", 1)] = none := by
          simp [List.find?, hpg]
        rw [h1, Option.or_none, hfind g]
        unfold expectedEntry
        rw [List.find?_append, List.countP_append]
        have h2 : List.find? (fun q => slugOf q == g) [p] = none := by
          simp [List.find?, hpg]
        have h3 : List.countP (fun q => slugOf q == g) [p] = 0 := by
          simp [List.countP_singleton, hpg]
        rw [h2, h3, Option.or_none]
        cases hq : ps.find? (fun q => slugOf q == g) <;> simp

theorem seriesAcc_spec (ps : List Post) : accInv ps (ps.foldl insertSeries []) := by
  induction ps using List.reverseRecOn with
  | nil =>
    constructor
    · simp
    · intro g
      simp [expectedEntry, List.find?_nil]
  | append_singleton l p ih =>
    rw [List.foldl_append]
    simpa using accInv_step p ih

theorem find?_of_mem_nodupKeys :
    ∀ {acc : List (String × String × Nat)}, (acc.map Prod.fst).Nodup →
      ∀ {e : String × String × Nat}, e ∈ acc →
        acc.find? (fun x => x.1 == e.1) = some e := by
  intro acc
  induction acc with
  | nil =>
    intro _ e he
    simp at he
  | cons f rest ih =>
    intro hnd e he
    rw [List.map_cons, List.nodup_cons] at hnd
    obtain ⟨hf, hrest⟩ := hnd
    rcases List.mem_cons.mp he with he1 | he2
    · subst he1
      simp [List.find?]
    · have hne : (f.1 == e.1) = false := by
        by_cases hb : f.1 = e.1
        · exact absurd (hb ▸ List.mem_map.mpr ⟨e, he2, rfl⟩) hf
        · simp [hb]
      simp only [List.find?, hne]
      exact ih hrest he2

theorem countP_key_of_nodup :
    ∀ {acc : List (String × String × Nat)}, (acc.map Prod.fst).Nodup →
      ∀ g : String, acc.countP (fun e => e.1 == g) =
        if (acc.find? (fun e => e.1 == g)).isSome then 1 else 0 := by
  intro acc
  induction acc with
  | nil =>
    intro _ g
    simp
  | cons f rest ih =>
    intro hnd g
    rw [List.map_cons, List.nodup_cons] at hnd
    obtain ⟨hf, hrest⟩ := hnd
    by_cases hb : (f.1 == g) = true
    · have hg : f.1 = g := by simpa using hb
      have hrest0 : rest.countP (fun e => e.1 == g) = 0 := by
        apply List.countP_eq_zero.mpr
        intro e he hbe
        have heg : e.1 = g := by simpa using hbe
        exact hf (by rw [hg, ← heg]; exact List.mem_map.mpr ⟨e, he, rfl⟩)
      rw [List.countP_cons, hrest0]
      simp [List.find?, hb]
    · have hbf : (f.1 == g) = false := by
        cases hc : (f.1 == g) with
        | false => rfl
        | true => exact absurd hc hb
      rw [List.countP_cons]
      simp only [hbf, Bool.false_eq_true, if_false, Nat.add_zero, ite_false]
      rw [ih hrest g]
      simp only [List.find?, hbf]

theorem getUniqueSeries_entry {posts : List Post} {e : Series}
    (he : e ∈ getUniqueSeries posts) :
    expectedEntry (eligibleSeriesPosts posts) e.series =
      some (e.series, e.seriesName, e.count) := by
  unfold getUniqueSeries at he
  rw [(List.perm_insertionSort summaryLe _).mem_iff] at he
  obtain ⟨x, hx, hxe⟩ := List.mem_map.mp he
  obtain ⟨hnd, hfind⟩ := seriesAcc_spec (eligibleSeriesPosts posts)
  have hfx := find?_of_mem_nodupKeys hnd (show x ∈ (eligibleSeriesPosts posts).foldl insertSeries [] from hx)
  rw [hfind x.1] at hfx
  have hser : e.series = x.1 := by rw [← hxe]
  have hnam : e.seriesName = x.2.1 := by rw [← hxe]
  have hcnt : e.count = x.2.2 := by rw [← hxe]
  rw [hser, hnam, hcnt]
  exact hfx

theorem getUniqueSeries_countP (posts : List Post) (g : String) :
    (getUniqueSeries posts).countP (fun e => e.series == g) =
      if (eligibleSeriesPosts posts).countP (fun p => slugOf p == g) = 0 then 0 else 1 := by
  unfold getUniqueSeries
  rw [List.Perm.countP_eq _ (List.perm_insertionSort _ _)]
  rw [List.countP_map]
  obtain ⟨hnd, hfind⟩ := seriesAcc_spec (eligibleSeriesPosts posts)
  have hpred : ((fun e : Series => e.series == g) ∘
      (fun x : String × String × Nat =>
        ({series := x.1, seriesName := x.2.1, count := x.2.2} : Series))) =
      (fun x : String × String × Nat => x.1 == g) := rfl
  rw [hpred]
  rw [show ((posts.filter postFilter).filter seriesTruthy).foldl insertSeries [] =
      (eligibleSeriesPosts posts).foldl insertSeries [] from rfl]
  rw [countP_key_of_nodup hnd g, hfind g]
  unfold expectedEntry
  cases hq : (eligibleSeriesPosts posts).find? (fun p => slugOf p == g) with
  | none =>
    have h0 : (eligibleSeriesPosts posts).countP (fun p => slugOf p == g) = 0 :=
      List.countP_eq_zero.mpr (List.find?_eq_none.mp hq)
    simp [h0]
  | some q =>
    have hppos : 0 < (eligibleSeriesPosts posts).countP (fun p => slugOf p == g) :=
      List.countP_pos_iff.mpr ⟨q, List.mem_of_find?_eq_some hq,
        @List.find?_some Post (fun p => slugOf p == g) q (eligibleSeriesPosts posts) hq⟩
    have hne : ¬ (eligibleSeriesPosts posts).countP (fun p => slugOf p == g) = 0 := by omega
    simp [hne]

/-! ### Claim theorems -/

/-- C1, counterexample: with an explicit `seriesOrder` of 1000 next to a post
missing `seriesOrder`, the missing one is placed first, not last: the code's
sentinel is 999, not a value larger than any real order. -/
theorem getPostsBySeries_missing_order_not_last :
    postOrder1000.seriesOrder = some 1000 ∧ postNoOrder.seriesOrder = none ∧
    getPostsBySeries [postOrder1000, postNoOrder] "s" =
      [postNoOrder, postOrder1000] := by
  refine ⟨rfl, rfl, ?_⟩
  decide

/-- C1 (amended): in every `getPostsBySeries` output, a post missing
`seriesOrder` sorts after every post whose explicit order is below the 999
sentinel: whenever a post without `seriesOrder` precedes an explicitly
ordered post, that order is at least 999. -/
theorem getPostsBySeries_missing_order_sentinel (posts : List Post) (s : String) :
    (getPostsBySeries posts s).Pairwise
      (fun a b => a.seriesOrder = none →
        ∀ k : Int, b.seriesOrder = some k → 999 ≤ k) := by
  refine (getPostsBySeries_pairwise posts s).imp ?_
  intro a b hab hnone k hk
  rw [seriesLe, cmpSeries_le_iff, hnone, hk] at hab
  simp only [Option.getD_none, Option.getD_some] at hab
  omega

/-- C2, counterexample: two distinct posts (different ids, same absent order
and equal timestamp) compare equal under the code's comparator, and the
output violates the claimed `(seriesOrder ?? +inf, pubDatetime, id)` order:
the stable sort keeps id "b" before id "a", so there is no id tie-break and
the comparator is not a strict total order on distinct posts. -/
theorem getPostsBySeries_no_id_tiebreak :
    cmpSeries postTieFirst postTieSecond = 0 ∧
    postTieFirst ≠ postTieSecond ∧
    getPostsBySeries [postTieFirst, postTieSecond] "s" =
      [postTieFirst, postTieSecond] ∧
    specTripleLe postTieFirst postTieSecond = false := by
  refine ⟨by decide, by decide, by decide, by decide⟩

/-- C2 (amended): the output of `getPostsBySeries` is sorted non-decreasing
by the pair `(seriesOrder ?? 999, pubDatetime)` (not by the spec's triple
with an id tie-break), and applying the function twice to the same input
trivially yields identical output since it is a pure function. -/
theorem getPostsBySeries_sorted (posts : List Post) (s : String) :
    (getPostsBySeries posts s).Pairwise
      (fun a b => a.seriesOrder.getD 999 < b.seriesOrder.getD 999 ∨
        (a.seriesOrder.getD 999 = b.seriesOrder.getD 999 ∧
          a.pubDatetime ≤ b.pubDatetime)) ∧
    getPostsBySeries posts s = getPostsBySeries posts s :=
  ⟨(getPostsBySeries_pairwise posts s).imp
    (fun hab => (cmpSeries_le_iff _ _).mp hab), rfl⟩

/-- C6: the members `getPostsBySeries` returns are exactly the eligible posts
whose normalized series name equals the target identifier (a permutation of
the filtered input, so every matching post appears with its input
multiplicity and nothing else appears), and when nothing matches the result
is the empty list rather than an error. -/
theorem getPostsBySeries_members (posts : List Post) (s : String) :
    (getPostsBySeries posts s).Perm
      ((posts.filter postFilter).filter
        (fun post => seriesTruthy post && (slugOf post == s))) ∧
    (∀ p, p ∈ getPostsBySeries posts s ↔
      (p ∈ posts ∧ postFilter p = true ∧ seriesTruthy p = true ∧ slugOf p = s)) ∧
    ((∀ p ∈ posts, ¬(postFilter p = true ∧ seriesTruthy p = true ∧ slugOf p = s)) →
      getPostsBySeries posts s = []) := by
  refine ⟨getPostsBySeries_perm posts s, ?_, ?_⟩
  · intro p
    rw [(getPostsBySeries_perm posts s).mem_iff]
    simp only [List.mem_filter, Bool.and_eq_true, beq_iff_eq]
    tauto
  · intro hnone
    have hfilter : ((posts.filter postFilter).filter
        (fun post => seriesTruthy post && (slugOf post == s))) = [] := by
      rw [List.filter_eq_nil_iff]
      intro p hp
      rw [List.mem_filter] at hp
      intro hcond
      rw [Bool.and_eq_true, beq_iff_eq] at hcond
      exact hnone p hp.1 ⟨hp.2, hcond.1, hcond.2⟩
    unfold getPostsBySeries
    rw [hfilter]
    rfl

/-- C3: every eligible post with a truthy series name is counted in exactly
one summary of `getUniqueSeries` (the one keyed by its normalized series
name), and that summary's count equals the number of eligible posts sharing
the normalized identifier; in particular, posts whose series names differ
only by normalization fall into the same single summary. -/
theorem getUniqueSeries_groups (posts : List Post) (p : Post)
    (hp : p ∈ eligibleSeriesPosts posts) :
    (getUniqueSeries posts).countP (fun e => e.series == slugOf p) = 1 ∧
    ∀ e ∈ getUniqueSeries posts, e.series = slugOf p →
      e.count = (eligibleSeriesPosts posts).countP
        (fun q => slugOf q == slugOf p) := by
  constructor
  · rw [getUniqueSeries_countP posts (slugOf p)]
    have hpos : 0 < (eligibleSeriesPosts posts).countP
        (fun q => slugOf q == slugOf p) :=
      List.countP_pos_iff.mpr ⟨p, hp, by simp⟩
    have hne : ¬ (eligibleSeriesPosts posts).countP
        (fun q => slugOf q == slugOf p) = 0 := by omega
    simp [hne]
  · intro e he hse
    have h1 := getUniqueSeries_entry he
    rw [hse] at h1
    unfold expectedEntry at h1
    cases hq : (eligibleSeriesPosts posts).find? (fun q => slugOf q == slugOf p) with
    | none =>
      rw [hq] at h1
      simp at h1
    | some q =>
      rw [hq] at h1
      simp only [Option.some.injEq, Prod.mk.injEq] at h1
      exact h1.2.2.symm

/-- Witness for C3 at a concrete input: "Axum  A" and "axum a" normalize to
the same identifier, so both posts land in one summary counting 2. -/
theorem getUniqueSeries_groups_witness :
    postAxumA ∈ eligibleSeriesPosts [postAxumA, postAxumB] ∧
    ((getUniqueSeries [postAxumA, postAxumB]).countP
        (fun e => e.series == slugOf postAxumA) = 1 ∧
      ∀ e ∈ getUniqueSeries [postAxumA, postAxumB], e.series = slugOf postAxumA →
        e.count = (eligibleSeriesPosts [postAxumA, postAxumB]).countP
          (fun q => slugOf q == slugOf postAxumA)) :=
  ⟨by decide, getUniqueSeries_groups [postAxumA, postAxumB] postAxumA (by decide)⟩

/-- C7: the display name of every summary `getUniqueSeries` returns equals
the raw series name of the first eligible post, in input order, whose
normalized series name is the summary's identifier: later posts of the same
series never overwrite it. -/
theorem getUniqueSeries_displayName (posts : List Post) (e : Series)
    (he : e ∈ getUniqueSeries posts) :
    ∃ q, (eligibleSeriesPosts posts).find? (fun p => slugOf p == e.series) = some q ∧
      e.seriesName = q.series.getD "" := by
  have h1 := getUniqueSeries_entry he
  unfold expectedEntry at h1
  cases hq : (eligibleSeriesPosts posts).find? (fun p => slugOf p == e.series) with
  | none =>
    rw [hq] at h1
    simp at h1
  | some q =>
    rw [hq] at h1
    simp only [Option.some.injEq, Prod.mk.injEq] at h1
    exact ⟨q, rfl, h1.2.1.symm⟩

/-- Witness for C7 at a concrete input: the summary of the "Axum  A" series
reports the first post's raw series name even though a later post spells the
series differently. -/
theorem getUniqueSeries_displayName_witness :
    ({ series := "axum-a", seriesName := "Axum  A", count := 2 } : Series) ∈
      getUniqueSeries [postAxumA, postAxumB] ∧
    (∃ q, (eligibleSeriesPosts [postAxumA, postAxumB]).find?
        (fun p => slugOf p ==
          ({ series := "axum-a", seriesName := "Axum  A", count := 2 } : Series).series) =
        some q ∧
      ({ series := "axum-a", seriesName := "Axum  A", count := 2 } : Series).seriesName =
        q.series.getD "") :=
  ⟨by decide, getUniqueSeries_displayName [postAxumA, postAxumB]
    { series := "axum-a", seriesName := "Axum  A", count := 2 } (by decide)⟩

/-- C8: the summary list holds at most one entry per normalized identifier,
is sorted non-decreasing by display name under the modelled locale
comparison, and an input without eligible series-bearing posts yields the
empty list rather than an error. -/
theorem getUniqueSeries_sorted_nodup (posts : List Post) :
    ((getUniqueSeries posts).map Series.series).Nodup ∧
    (getUniqueSeries posts).Pairwise
      (fun a b => localeCompare a.seriesName b.seriesName ≤ 0) ∧
    (eligibleSeriesPosts posts = [] → getUniqueSeries posts = []) := by
  refine ⟨?_, ?_, ?_⟩
  · obtain ⟨hnd, _⟩ := seriesAcc_spec (eligibleSeriesPosts posts)
    unfold getUniqueSeries
    rw [((List.perm_insertionSort summaryLe _).map Series.series).nodup_iff]
    rw [List.map_map]
    have hcomp : (Series.series ∘ fun e : String × String × Nat =>
        ({ series := e.1, seriesName := e.2.1, count := e.2.2 } : Series)) =
        (Prod.fst : String × String × Nat → String) := rfl
    rw [hcomp]
    exact hnd
  · exact List.sorted_insertionSort summaryLe _
  · intro h
    unfold getUniqueSeries
    rw [show (posts.filter postFilter).filter seriesTruthy = ([] : List Post) from h]
    rfl

/-- C4: when the current post's id is found at 0-based index `i` of its
ordered series list of length `L`, the navigation result has the previous
post at `i-1` when `i > 0` (else none), the next post at `i+1` when
`i < L-1` (else none), 1-based position `i+1` and total `L`; the first post
gets no previous, the last no next, and a singleton series gets neither with
position and total both 1. -/
theorem getSeriesNavigation_spec (posts : List Post) (p : Post) (i : Nat)
    (hseries : seriesTruthy p = true)
    (hfind : findIndex (fun q => q.id == p.id)
      (getPostsBySeries posts (slugOf p)) = some i) :
    ∃ r, getSeriesNavigation posts p = some r ∧
      r.prevPost =
        (if 0 < i then (getPostsBySeries posts (slugOf p))[i - 1]? else none) ∧
      r.nextPost =
        (if i < (getPostsBySeries posts (slugOf p)).length - 1
          then (getPostsBySeries posts (slugOf p))[i + 1]? else none) ∧
      r.currentIndex = i + 1 ∧
      r.totalPosts = (getPostsBySeries posts (slugOf p)).length ∧
      (i = 0 → r.prevPost = none) ∧
      (i + 1 = (getPostsBySeries posts (slugOf p)).length → r.nextPost = none) ∧
      ((getPostsBySeries posts (slugOf p)).length = 1 →
        r.prevPost = none ∧ r.nextPost = none ∧ r.currentIndex = 1 ∧
          r.totalPosts = 1) := by
  have hlen := findIndex_lt_length hfind
  have hnav : getSeriesNavigation posts p = some
      { prevPost :=
          if 0 < i then (getPostsBySeries posts (slugOf p))[i - 1]? else none
        nextPost :=
          if i < (getPostsBySeries posts (slugOf p)).length - 1
            then (getPostsBySeries posts (slugOf p))[i + 1]? else none
        currentIndex := i + 1
        totalPosts := (getPostsBySeries posts (slugOf p)).length
        seriesName := p.series.getD "" } := by
    simp only [getSeriesNavigation, hseries, Bool.not_true, Bool.false_eq_true,
      if_false, ite_false, hfind]
  refine ⟨_, hnav, rfl, rfl, rfl, rfl, ?_, ?_, ?_⟩
  · intro h0
    subst h0
    simp
  · intro hL
    have hnl : ¬ (i < (getPostsBySeries posts (slugOf p)).length - 1) := by omega
    simp [hnl]
  · intro h1
    have h0 : i = 0 := by omega
    subst h0
    have hnl : ¬ ((0 : Nat) < (getPostsBySeries posts (slugOf p)).length - 1) := by
      omega
    exact ⟨by simp, by simp [hnl], rfl, by simp [h1]⟩

/-- Witness for C4 at a concrete input: a three-post series with the middle
post as the current one. -/
theorem getSeriesNavigation_spec_witness :
    seriesTruthy postNav2 = true ∧
    findIndex (fun q => q.id == postNav2.id)
      (getPostsBySeries [postNav1, postNav2, postNav3] (slugOf postNav2)) =
        some 1 ∧
    (∃ r, getSeriesNavigation [postNav1, postNav2, postNav3] postNav2 = some r ∧
      r.prevPost = (if 0 < 1 then
        (getPostsBySeries [postNav1, postNav2, postNav3] (slugOf postNav2))[1 - 1]?
        else none) ∧
      r.nextPost = (if 1 <
          (getPostsBySeries [postNav1, postNav2, postNav3] (slugOf postNav2)).length - 1
        then (getPostsBySeries [postNav1, postNav2, postNav3] (slugOf postNav2))[1 + 1]?
        else none) ∧
      r.currentIndex = 1 + 1 ∧
      r.totalPosts =
        (getPostsBySeries [postNav1, postNav2, postNav3] (slugOf postNav2)).length ∧
      ((1 : Nat) = 0 → r.prevPost = none) ∧
      (1 + 1 =
          (getPostsBySeries [postNav1, postNav2, postNav3] (slugOf postNav2)).length →
        r.nextPost = none) ∧
      ((getPostsBySeries [postNav1, postNav2, postNav3] (slugOf postNav2)).length = 1 →
        r.prevPost = none ∧ r.nextPost = none ∧ r.currentIndex = 1 ∧
          r.totalPosts = 1)) :=
  ⟨by decide, by decide,
    getSeriesNavigation_spec [postNav1, postNav2, postNav3] postNav2 1
      (by decide) (by decide)⟩

/-- C5: `getSeriesNavigation` is a total function (the embedding never
throws) returning `none` exactly when the current post's series field is
falsy or no post in its ordered series list carries the current post's id;
in every other case it returns a populated result. -/
theorem getSeriesNavigation_none_iff (posts : List Post) (p : Post) :
    getSeriesNavigation posts p = none ↔
      (seriesTruthy p = false ∨
        ∀ q ∈ getPostsBySeries posts (slugOf p), q.id ≠ p.id) := by
  by_cases hs : seriesTruthy p = true
  · cases hf : findIndex (fun post => post.id == p.id)
        (getPostsBySeries posts (slugOf p)) with
    | none =>
      have hnav : getSeriesNavigation posts p = none := by
        simp only [getSeriesNavigation, hs, Bool.not_true, Bool.false_eq_true,
          if_false, ite_false, hf]
      rw [hnav]
      constructor
      · intro _
        right
        intro q hq
        have hb := (findIndex_eq_none_iff _ _).mp hf q hq
        simpa using hb
      · intro _
        rfl
    | some j =>
      have hr : getSeriesNavigation posts p = some
          { prevPost :=
              if 0 < j then (getPostsBySeries posts (slugOf p))[j - 1]? else none
            nextPost :=
              if j < (getPostsBySeries posts (slugOf p)).length - 1
                then (getPostsBySeries posts (slugOf p))[j + 1]? else none
            currentIndex := j + 1
            totalPosts := (getPostsBySeries posts (slugOf p)).length
            seriesName := p.series.getD "" } := by
        simp only [getSeriesNavigation, hs, Bool.not_true, Bool.false_eq_true,
          if_false, ite_false, hf]
      rw [hr]
      constructor
      · intro h
        cases h
      · rintro (h1 | h2)
        · rw [hs] at h1
          cases h1
        · have hnone : findIndex (fun post => post.id == p.id)
              (getPostsBySeries posts (slugOf p)) = none :=
            (findIndex_eq_none_iff _ _).mpr (fun q hq => by
              have hne := h2 q hq
              simpa using hne)
          rw [hf] at hnone
          cases hnone
  · have hs' : seriesTruthy p = false := by
      cases hc : seriesTruthy p with
      | false => rfl
      | true => exact absurd hc hs
    have hnav : getSeriesNavigation posts p = none := by
      simp only [getSeriesNavigation, hs', Bool.not_false, if_true, ite_true]
    rw [hnav]
    simp [hs']

/-- C9: a post whose series field is present but empty is treated by all
three operations as belonging to no series: removing it from the input
changes neither `getUniqueSeries` nor `getPostsBySeries`, it is never a
member of any series, and its navigation is `none`. -/
theorem emptySeries_no_series (posts posts1 posts2 : List Post) (p : Post)
    (s : String) (hp : p.series = some "") :
    getUniqueSeries (posts1 ++ p :: posts2) = getUniqueSeries (posts1 ++ posts2) ∧
    getPostsBySeries (posts1 ++ p :: posts2) s = getPostsBySeries (posts1 ++ posts2) s ∧
    p ∉ getPostsBySeries posts s ∧
    getSeriesNavigation posts p = none := by
  have hst : seriesTruthy p = false := by
    unfold seriesTruthy
    rw [hp]
    rfl
  refine ⟨?_, ?_, ?_, ?_⟩
  · unfold getUniqueSeries
    have hfeq : ((posts1 ++ p :: posts2).filter postFilter).filter seriesTruthy =
        ((posts1 ++ posts2).filter postFilter).filter seriesTruthy := by
      rw [List.filter_filter, List.filter_filter, List.filter_append,
        List.filter_append, List.filter_cons]
      simp [hst]
    rw [hfeq]
  · unfold getPostsBySeries
    have hfeq : ((posts1 ++ p :: posts2).filter postFilter).filter
          (fun post => seriesTruthy post && (slugOf post == s)) =
        ((posts1 ++ posts2).filter postFilter).filter
          (fun post => seriesTruthy post && (slugOf post == s)) := by
      rw [List.filter_filter, List.filter_filter, List.filter_append,
        List.filter_append, List.filter_cons]
      simp [hst]
    rw [hfeq]
  · intro hmem
    have hm := (getPostsBySeries_perm posts s).mem_iff.mp hmem
    rw [List.mem_filter] at hm
    have h2 := hm.2
    rw [Bool.and_eq_true] at h2
    rw [hst] at h2
    cases h2.1
  · simp only [getSeriesNavigation, hst, Bool.not_false, if_true, ite_true]

/-- Witness for C9 at a concrete input: a post with `series: ""` next to an
ordinary series post. -/
theorem emptySeries_no_series_witness :
    postEmptySeries.series = some "" ∧
    (getUniqueSeries ([postNav1] ++ postEmptySeries :: [postNav2]) =
        getUniqueSeries ([postNav1] ++ [postNav2]) ∧
      getPostsBySeries ([postNav1] ++ postEmptySeries :: [postNav2]) "s" =
        getPostsBySeries ([postNav1] ++ [postNav2]) "s" ∧
      postEmptySeries ∉ getPostsBySeries [postNav1, postEmptySeries, postNav2] "s" ∧
      getSeriesNavigation [postNav1, postEmptySeries, postNav2] postEmptySeries =
        none) :=
  ⟨rfl, emptySeries_no_series [postNav1, postEmptySeries, postNav2]
    [postNav1] [postNav2] postEmptySeries "s" rfl⟩

/-- C10: a non-null navigation result reports the current post's own raw
series name verbatim (not the normalized identifier and not another post's
spelling), so posts of one series whose names differ only by normalization
see different names in their navigation results. -/
theorem getSeriesNavigation_seriesName (posts : List Post) (p : Post)
    (r : SeriesNavigation) (h : getSeriesNavigation posts p = some r) :
    ∃ s, p.series = some s ∧ s ≠ "" ∧ r.seriesName = s := by
  by_cases hs : seriesTruthy p = true
  · cases hf : findIndex (fun post => post.id == p.id)
        (getPostsBySeries posts (slugOf p)) with
    | none =>
      have hnav : getSeriesNavigation posts p = none := by
        simp only [getSeriesNavigation, hs, Bool.not_true, Bool.false_eq_true,
          if_false, ite_false, hf]
      rw [hnav] at h
      cases h
    | some i =>
      have hnav : getSeriesNavigation posts p = some
          { prevPost :=
              if 0 < i then (getPostsBySeries posts (slugOf p))[i - 1]? else none
            nextPost :=
              if i < (getPostsBySeries posts (slugOf p)).length - 1
                then (getPostsBySeries posts (slugOf p))[i + 1]? else none
            currentIndex := i + 1
            totalPosts := (getPostsBySeries posts (slugOf p)).length
            seriesName := p.series.getD "" } := by
        simp only [getSeriesNavigation, hs, Bool.not_true, Bool.false_eq_true,
          if_false, ite_false, hf]
      rw [hnav] at h
      have hr : r.seriesName = p.series.getD "" := by
        rw [← Option.some.injEq] at h
        cases h
        rfl
      cases hps : p.series with
      | none =>
        unfold seriesTruthy at hs
        rw [hps] at hs
        cases hs
      | some sn =>
        refine ⟨sn, rfl, ?_, ?_⟩
        · unfold seriesTruthy at hs
          rw [hps] at hs
          simpa using hs
        · rw [hr, hps]
          rfl
  · have hs' : seriesTruthy p = false := by
      cases hc : seriesTruthy p with
      | false => rfl
      | true => exact absurd hc hs
    have hnav : getSeriesNavigation posts p = none := by
      simp only [getSeriesNavigation, hs', Bool.not_false, if_true, ite_true]
    rw [hnav] at h
    cases h

/-- Witness for C10 at a concrete input: the middle post of a three-post
series sees its own series name in its navigation result. -/
theorem getSeriesNavigation_seriesName_witness :
    getSeriesNavigation [postNav1, postNav2, postNav3] postNav2 = some
      { prevPost := some postNav1, nextPost := some postNav3,
        currentIndex := 2, totalPosts := 3, seriesName := "s" } ∧
    (∃ s, postNav2.series = some s ∧ s ≠ "" ∧
      ({ prevPost := some postNav1, nextPost := some postNav3,
         currentIndex := 2, totalPosts := 3,
         seriesName := "s" } : SeriesNavigation).seriesName = s) :=
  ⟨by decide, getSeriesNavigation_seriesName [postNav1, postNav2, postNav3]
    postNav2
    { prevPost := some postNav1, nextPost := some postNav3,
      currentIndex := 2, totalPosts := 3, seriesName := "s" } (by decide)⟩
